import Mathlib

set_option maxRecDepth 4096

/-!
Shallow embedding of `src/argparse.h` (single-header C++ argument parser,
namespace `argparse`).

Mapping notes.

* `value_type`, `value`, `positional_argument`, `optional_argument` and the
  `argparse` parser object keep their source names.  C++ member names lose
  their leading underscore (`_completed` becomes `completed`, the stored raw
  string `_value` becomes `raw`).
* `int16_t` arities are modeled as `Int`; `variable_args = -1` as in the
  source.  No claim exercises arities outside int16_t range.
* All C++ failures are `throw std::runtime_error(msg)`.  Each distinct message
  is mapped to one constructor of `ArgError` (the spec's error taxonomy):
  "argument type is null."  -> NullType,
  "value is not convertible to ...-type" -> InvalidConversion,
  "cannot add any argument after varargs." -> InvalidRegistration,
  "insufficient number of arguments" -> InsufficientArguments,
  "arguments are not parsed." -> NotParsed,
  "argument not found." -> UnknownArgument.
* `std::map<arg, values>` is modeled as an insertion-ordered association list;
  `std::map::insert` does not overwrite an existing key, and only `find`/`at`
  are observable, so lookups coincide with the C++ map.
* The phase-1 loop that consumes a fixed arity (source lines 971-973)
  dereferences the token iterator with no end check; running past the end of
  the vector is undefined behavior in C++ and is modeled by a dedicated `.ub`
  outcome.  Likewise `get<T>(name)` indexes `getall<T>(name)[0]` with
  `std::vector::operator[]`, which is undefined on an empty vector.
* `parse` is modeled with `help_on_error` and `show_help_and_exit` disabled:
  the claims are about the propagating core; both flags only add
  display-and-exit behavior at the presentation boundary.
* `std::stol` / `std::stod` are C++ standard-library functions (not in the
  repository); they are modeled from their documented behavior: skip leading
  whitespace, optional sign, then the longest digit prefix (`stol`, with the
  64-bit `long` range check), respectively acceptance of a decimal / inf /
  nan prefix (`stod`; only success or failure of `stod` is observable through
  this header, so the numeric value of a float is not modeled).
-/

namespace Argparse

/-- Types of values recognized by the parser (`argparse::value_type`). -/
inductive value_type where
  | Null
  | Bool
  | Integer
  | Float
  | String
deriving DecidableEq

/-- Error kinds, one per distinct `std::runtime_error` message of the source. -/
inductive ArgError where
  | NullType
  | InvalidConversion
  | InvalidRegistration
  | InsufficientArguments
  | NotParsed
  | UnknownArgument
deriving DecidableEq

/-- Indicator of variable arguments (`argparse::variable_args`, an int16_t
constant equal to -1). -/
def variable_args : Int := -1

/-- C-locale isspace, as used by std::stol / std::stod for leading
whitespace. -/
def isSpaceC (c : Char) : Bool :=
  c == ' ' || c == '\t' || c == '\n' || c == '\x0b' || c == '\x0c' || c == '\r'

/-- Numeric value of a string of decimal digits. -/
def digitsVal (ds : List Char) : Nat :=
  ds.foldl (fun a c => 10 * a + (c.toNat - 48)) 0

/-- Split an optional single leading sign character, returning the sign and
the rest. -/
def signSplit (cs : List Char) : Int × List Char :=
  match cs with
  | [] => (1, [])
  | c :: r => if c = '+' then (1, r) else if c = '-' then ((-1 : Int), r) else (1, c :: r)

/-- Sign of the number std::stol would parse. -/
def stolSign (s : String) : Int := (signSplit (s.data.dropWhile isSpaceC)).1

/-- Longest digit prefix after whitespace and sign, as consumed by
std::stol. -/
def stolDigits (s : String) : List Char :=
  ((signSplit (s.data.dropWhile isSpaceC)).2).takeWhile Char.isDigit

/-- Signed value of the digit prefix. -/
def stolVal (s : String) : Int := stolSign s * Int.ofNat (digitsVal (stolDigits s))

/-- Model of std::stol in base 10 on a 64-bit platform: `none` exactly when
the C++ call throws (std::invalid_argument when no digit follows the optional
whitespace and sign, std::out_of_range when the value does not fit a signed
64-bit long).  Trailing non-digit characters are ignored. -/
def stol (s : String) : Option Int :=
  if (stolDigits s).isEmpty then none
  else if stolVal s < -(2 ^ 63) ∨ 2 ^ 63 - 1 < stolVal s then none
  else some (stolVal s)

/-- Case-insensitive prefix test (ASCII), used for the inf / nan forms of
std::stod. -/
def startsWithCI : List Char → List Char → Bool
  | _, [] => true
  | [], _ :: _ => false
  | c :: cs, p :: ps => (c.toLower == p.toLower) && startsWithCI cs ps

/-- Model of std::stod acceptance: after optional whitespace and sign the
string must start a decimal number (a digit, or a point followed by a digit)
or an inf / nan form.  Only success is observable through this header, so the
parsed double itself is not modeled; overflow to out_of_range on enormous
exponents is not modeled (no claim involves Float values). -/
def stodAccepts (s : String) : Bool :=
  let rest := (signSplit (s.data.dropWhile isSpaceC)).2
  (match rest with
   | c :: _ => c.isDigit
   | [] => false) ||
  (match rest with
   | c :: d :: _ => decide (c = '.') && d.isDigit
   | _ => false) ||
  startsWithCI rest "inf".data || startsWithCI rest "nan".data

/-- value::convert_bool (source lines 209-223): full-string case-insensitive
"true" / "false", otherwise fall back to std::stol and compare with zero;
`none` when the C++ code throws. -/
def convert_bool (s : String) : Option Bool :=
  if s.data.map Char.toLower = "true".data then some true
  else if s.data.map Char.toLower = "false".data then some false
  else
    match stol s with
    | some n => some (decide (n ≠ 0))
    | none => none

/-- The typed container `argparse::value`: a type tag and the raw string
(member `_value`). -/
structure value where
  type : value_type
  raw : String
deriving DecidableEq

/-- value::assert_argument_type (source lines 185-207): eagerly runs the
conversion selected by the type tag and reports its failure. -/
def assert_argument_type (t : value_type) (s : String) : Except ArgError Unit :=
  match t with
  | .Null => .error .NullType
  | .Bool =>
    match convert_bool s with
    | some _ => .ok ()
    | none => .error .InvalidConversion
  | .Integer =>
    match stol s with
    | some _ => .ok ()
    | none => .error .InvalidConversion
  | .Float => if stodAccepts s then .ok () else .error .InvalidConversion
  | .String => .ok ()

/-- The validating constructor value(type, s): stores the pair only when
assert_argument_type succeeds. -/
def mkValue (t : value_type) (s : String) : Except ArgError value :=
  match assert_argument_type t s with
  | .error e => .error e
  | .ok _ => .ok ⟨t, s⟩

/-- The value(Bool, "true") inserted for a matched arity-0 option (source
line 961); its construction always succeeds. -/
def vtrue : value := ⟨.Bool, "true"⟩

/-- argparse::positional_argument (fields of abstract_argument). -/
structure positional_argument where
  name : String
  type : value_type
  nargs : Int
  comment : String
deriving DecidableEq

/-- argparse::optional_argument: alias list `_optseqs` plus the
abstract_argument fields. -/
structure optional_argument where
  optseqs : List String
  name : String
  type : value_type
  nargs : Int
  comment : String
deriving DecidableEq

/-- optional_argument::operator==(str): true when any alias equals the
token. -/
def optMatches (o : optional_argument) (tok : String) : Bool :=
  o.optseqs.any (fun d => d == tok)

/-- The result map std::map<arg, values>, as an association list.  Only
find / at / insert-if-absent are used by the parser, so this is
observationally the C++ map. -/
abbrev MapT := List (String × List value)

/-- std::map::insert: no-op when the key already has an entry. -/
def mapInsert (m : MapT) (k : String) (v : List value) : MapT :=
  match m with
  | [] => [(k, v)]
  | (k0, v0) :: rest =>
    if k0 = k then (k0, v0) :: rest else (k0, v0) :: mapInsert rest k v

/-- std::map::find (as an Option, also covering std::map::at). -/
def mapFind (m : MapT) (k : String) : Option (List value) :=
  match m with
  | [] => none
  | (k0, v0) :: rest => if k0 = k then some v0 else mapFind rest k

/-- The parser object `argparse::argparse`.  The unused `_nargs` member is
omitted. -/
structure argparse where
  description : String
  completed : Bool
  varargs : Bool
  appname : String
  map : MapT
  arguments : List String
  parse_parameters : List positional_argument
  parse_options : List optional_argument
deriving DecidableEq

/-- Constructor argparse(nargs, argv, desc): `_appname` is argv[0] and
`_arguments` is argv[1..]. -/
def mkParser (argv : List String) (desc : String) : argparse :=
  { description := desc,
    completed := false,
    varargs := false,
    appname := argv.headD "",
    map := [],
    arguments := argv.tail,
    parse_parameters := [],
    parse_options := [] }

/-- argparse::add_argument(name, type, n, com) (source lines 775-782); the
1- and 2-argument overloads delegate here with n = 1, com = "". -/
def add_argument (st : argparse) (name : String) (t : value_type) (n : Int)
    (com : String) : Except ArgError argparse :=
  if st.varargs then .error .InvalidRegistration
  else .ok { st with
    varargs := st.varargs || decide (n < 0),
    parse_parameters := st.parse_parameters ++ [⟨name, t, n, com⟩],
    completed := false }

/-- argparse::add_option(dirs, name, type, n, com) (source lines 851-859);
the single-directive and defaulted overloads delegate here. -/
def add_option (st : argparse) (dirs : List String) (name : String)
    (t : value_type) (n : Int) (com : String) : Except ArgError argparse :=
  if st.varargs then .error .InvalidRegistration
  else .ok { st with
    varargs := st.varargs || decide (n < 0),
    parse_options := st.parse_options ++ [⟨dirs, name, t, n, com⟩],
    completed := false }

/-- One registration call, for reasoning about arbitrary registration
sequences. -/
inductive RegOp where
  | pos (name : String) (t : value_type) (n : Int) (com : String)
  | opt (dirs : List String) (name : String) (t : value_type) (n : Int) (com : String)
deriving DecidableEq

/-- Apply one registration call. -/
def applyReg (st : argparse) : RegOp → Except ArgError argparse
  | .pos name t n com => add_argument st name t n com
  | .opt dirs name t n com => add_option st dirs name t n com

/-- Whether a registration declares Variable arity (n < 0 sets `_varargs`). -/
def regIsVar : RegOp → Bool
  | .pos _ _ n _ => decide (n < 0)
  | .opt _ _ _ n _ => decide (n < 0)

/-- Run a sequence of registration calls, stopping at the first failure. -/
def runRegs (st : argparse) : List RegOp → Except ArgError argparse
  | [] => .ok st
  | op :: ops =>
    match applyReg st op with
    | .error e => .error e
    | .ok st2 => runRegs st2 ops

/-- Outcome of consuming tokens in phase 1. -/
inductive COut where
  | ok (vs : List value) (rest : List String)
  | err (e : ArgError)
  | ub
deriving DecidableEq

/-- Phase-1 fixed-arity consumption (source lines 971-973): the loop
`for (i=0; i<size; i++) { v.push_back(value(type, *vp)); vp++; }` has no end
check, so exhausting the token vector dereferences the end iterator:
undefined behavior, modeled as `.ub`. -/
def consumeN (t : value_type) : Nat → List String → COut
  | 0, toks => .ok [] toks
  | _ + 1, [] => .ub
  | n + 1, s :: rest =>
    match mkValue t s with
    | .error e => .err e
    | .ok v =>
      match consumeN t n rest with
      | .ok vs r => .ok (v :: vs) r
      | .err e => .err e
      | .ub => .ub

/-- Phase-2 fixed-arity consumption (source lines 1007-1012), with the
explicit end check that throws "insufficient number of arguments". -/
def consumeChecked (t : value_type) : Nat → List String →
    Except ArgError (List value × List String)
  | 0, toks => .ok ([], toks)
  | _ + 1, [] => .error .InsufficientArguments
  | n + 1, s :: rest =>
    match mkValue t s with
    | .error e => .error e
    | .ok v =>
      match consumeChecked t n rest with
      | .error e => .error e
      | .ok (vs, r) => .ok (v :: vs, r)

/-- Consume and convert every remaining token (Variable arity). -/
def convertAll (t : value_type) : List String → Except ArgError (List value)
  | [] => .ok []
  | s :: rest =>
    match mkValue t s with
    | .error e => .error e
    | .ok v =>
      match convertAll t rest with
      | .error e => .error e
      | .ok vs => .ok (v :: vs)

/-- Outcome of processing one matched option. -/
inductive StepOut where
  | ok (ins : Option (List value)) (rest : List String)
  | err (e : ArgError)
  | ub
deriving DecidableEq

/-- Processing of one matched option in phase 1 (source lines 966-981): the
cursor has already advanced past the alias token; dispatch on the arity.
`.ok none` is the case of a negative arity other than variable_args, where no
branch of the C++ if-chain runs and nothing is inserted. -/
def procOpt (o : optional_argument) (rest : List String) : StepOut :=
  if o.nargs = 0 then .ok (some [vtrue]) rest
  else if 1 ≤ o.nargs then
    match consumeN o.type o.nargs.toNat rest with
    | .ok vs rest2 => .ok (some vs) rest2
    | .err e => .err e
    | .ub => .ub
  else if o.nargs = variable_args then
    match convertAll o.type rest with
    | .ok vs => .ok (some vs) []
    | .error e => .err e
  else .ok none rest

/-- Result of one pass of the inner option loop. -/
inductive InnerOut where
  | ok (toks : List String) (m : MapT) (upd : Bool)
  | err (e : ArgError) (m : MapT)
  | ub
deriving DecidableEq

/-- The inner `for (auto o : _parse_options)` loop of phase 1 (source lines
957-982): each option is tested in registration order against the token at
the cursor; a match consumes tokens and inserts an entry, and the loop
continues with the remaining options at the new cursor; `if (vp == end)
break;` stops the loop when the input is exhausted. -/
def phase1Inner : List optional_argument → List String → MapT → Bool → InnerOut
  | [], toks, m, upd => .ok toks m upd
  | _ :: _, [], m, upd => .ok [] m upd
  | o :: os, tok :: rest, m, upd =>
    if optMatches o tok = true then
      match procOpt o rest with
      | .ok (some vs) rest2 => phase1Inner os rest2 (mapInsert m o.name vs) true
      | .ok none rest2 => phase1Inner os rest2 m true
      | .err e => .err e m
      | .ub => .ub
    else phase1Inner os (tok :: rest) m upd

/-- Result of phase 1: the `_remaining` tokens and the updated map, an
error with the map at the throw, or undefined behavior. -/
inductive P1Out where
  | ok (remaining : List String) (m : MapT)
  | err (e : ArgError) (m : MapT)
  | ub
deriving DecidableEq

/-- The outer `while (vp != _arguments.end())` loop of phase 1 (source lines
954-988), with explicit fuel to make the recursion structural: when the inner
loop matched nothing, the current token is appended to `_remaining` and the
cursor advances.  Fuel `arguments.length + 1` always suffices
(`phase1F_some`). -/
def phase1F (opts : List optional_argument) :
    Nat → List String → MapT → List String → Option P1Out
  | 0, _, _, _ => none
  | _ + 1, [], m, remAcc => some (.ok remAcc.reverse m)
  | fuel + 1, tok :: rest, m, remAcc =>
    match phase1Inner opts (tok :: rest) m false with
    | .ub => some .ub
    | .err e m2 => some (.err e m2)
    | .ok toks2 m2 true => phase1F opts fuel toks2 m2 remAcc
    | .ok _ m2 false => phase1F opts fuel rest m2 (tok :: remAcc)

/-- Result of phase 2. -/
inductive P2Out where
  | ok (m : MapT)
  | err (e : ArgError) (m : MapT)
deriving DecidableEq

/-- Phase 2 (source lines 996-1020): walk `_remaining` against the positional
specs in registration order.  The top-of-loop check throws "insufficient
number of arguments" whenever the remaining sequence is exhausted while specs
are left, before the arity is even inspected.  An arity that is neither >= 1
nor variable_args inserts an empty value list. -/
def phase2 : List positional_argument → List String → MapT → P2Out
  | [], _, m => .ok m
  | _ :: _, [], m => .err .InsufficientArguments m
  | p :: ps, tok :: rest, m =>
    if 1 ≤ p.nargs then
      match consumeChecked p.type p.nargs.toNat (tok :: rest) with
      | .error e => .err e m
      | .ok (vs, rest2) => phase2 ps rest2 (mapInsert m p.name vs)
    else if p.nargs = variable_args then
      match convertAll p.type (tok :: rest) with
      | .error e => .err e m
      | .ok vs => phase2 ps [] (mapInsert m p.name vs)
    else phase2 ps (tok :: rest) (mapInsert m p.name [])

/-- Outcome of argparse::parse. -/
inductive ParseResult where
  | ok (st : argparse)
  | err (e : ArgError) (st : argparse)
  | ub
  | outOfFuel
deriving DecidableEq

/-- argparse::parse (source lines 941-1054) with help_on_error and
show_help_and_exit disabled, so that errors propagate.  `.err` carries the
parser state at the throw: the partially filled map, `_completed` unchanged.
`.outOfFuel` is unreachable (`parse_ne_outOfFuel`). -/
def parse (st : argparse) : ParseResult :=
  match phase1F st.parse_options (st.arguments.length + 1) st.arguments st.map [] with
  | none => .outOfFuel
  | some .ub => .ub
  | some (.err e m) => .err e { st with map := m }
  | some (.ok rem m) =>
    match phase2 st.parse_parameters rem m with
    | .err e m2 => .err e { st with map := m2 }
    | .ok m2 => .ok { st with map := m2, completed := true }

/-- The native types T at which the claims instantiate get<T> / getall<T>
(bool, int64_t, double, std::string). -/
inductive req_type where
  | RBool
  | RInt64
  | RFloat
  | RString
deriving DecidableEq

/-- Native results of value::get<T>.  `VF` carries no payload: only the
success of std::stod is modeled (see stodAccepts). -/
inductive native_val where
  | VB (b : Bool)
  | VI (n : Int)
  | VF
  | VS (s : String)
deriving DecidableEq

/-- value::get<T> (source lines 133-172): the conversion run is chosen by the
REQUESTED native type; the stored type tag is ignored here (it only gated
construction). -/
def valueGet (v : value) : req_type → Except ArgError native_val
  | .RBool =>
    match convert_bool v.raw with
    | some b => .ok (.VB b)
    | none => .error .InvalidConversion
  | .RInt64 =>
    match stol v.raw with
    | some n => .ok (.VI n)
    | none => .error .InvalidConversion
  | .RFloat => if stodAccepts v.raw then .ok .VF else .error .InvalidConversion
  | .RString => .ok (.VS v.raw)

/-- The conversion loop of argparse::getall: convert every stored value,
propagating the first failure. -/
def getvals : List value → req_type → Except ArgError (List native_val)
  | [], _ => .ok []
  | v :: vs, t =>
    match valueGet v t with
    | .error e => .error e
    | .ok x =>
      match getvals vs t with
      | .error e => .error e
      | .ok xs => .ok (x :: xs)

/-- argparse::getall<T>(name) (source lines 1082-1096). -/
def getall (st : argparse) (name : String) (t : req_type) :
    Except ArgError (List native_val) :=
  if st.completed = false then .error .NotParsed
  else
    match mapFind st.map name with
    | none => .error .UnknownArgument
    | some vs => getvals vs t

/-- argparse::getall<T>(name, dummy) (source lines 1097-1111): still throws
NotParsed when `_completed` is false; returns the one-element dummy vector
only when the name has no entry. -/
def getallD (st : argparse) (name : String) (t : req_type) (dummy : native_val) :
    Except ArgError (List native_val) :=
  if st.completed = false then .error .NotParsed
  else
    match mapFind st.map name with
    | none => .ok [dummy]
    | some vs => getvals vs t

/-- Outcome of argparse::get<T>. -/
inductive GOut where
  | ok (x : native_val)
  | err (e : ArgError)
  | ub
deriving DecidableEq

/-- argparse::get<T>(name) = getall<T>(name)[0] (source lines 1056-1058);
std::vector::operator[] on an empty vector is undefined behavior. -/
def get0 (st : argparse) (name : String) (t : req_type) : GOut :=
  match getall st name t with
  | .error e => .err e
  | .ok [] => .ub
  | .ok (x :: _) => .ok x

/-- argparse::get<T>(name, dummy) (source lines 1064-1072): the body wraps
get-through-getall in `catch (std::runtime_error) { return dummy; }`, so
EVERY error - NotParsed, UnknownArgument, and conversion failures alike -
yields the dummy. -/
def getD (st : argparse) (name : String) (t : req_type) (dummy : native_val) : GOut :=
  match get0 st name t with
  | .err _ => .ok dummy
  | o => o

/-- Modelled from the amended claim for C5: construction of an Integer value
succeeds exactly when, after optional leading whitespace and at most one sign
character, the string begins with a digit and the signed value of its longest
digit prefix fits a signed 64-bit integer; trailing characters are
ignored. -/
def integerAcceptsSpec (s : String) : Bool :=
  !(stolDigits s).isEmpty &&
    decide (-(2 ^ 63) ≤ stolVal s ∧ stolVal s ≤ 2 ^ 63 - 1)

/-- Parser state after registering the Variable-arity option -x (claim C1). -/
def stC1v : argparse :=
  { description := "", completed := false, varargs := true, appname := "prog",
    map := [], arguments := [], parse_parameters := [],
    parse_options := [⟨["-x"], "xs", .Integer, -1, ""⟩] }

/-- Parser for tokens ["abc"] with positional x : String (claim C2). -/
def stC2pre : argparse :=
  { description := "", completed := false, varargs := false, appname := "prog",
    map := [], arguments := ["abc"],
    parse_parameters := [⟨"x", .String, 1, ""⟩], parse_options := [] }

/-- State of stC2pre after a successful parse: completed, with the entry
x -> [String "abc"]. -/
def stC2 : argparse :=
  { stC2pre with completed := true, map := [("x", [⟨.String, "abc"⟩])] }

/-- Parser for tokens ["-n", "3"] with option -n : Integer, arity 2
(claim C3). -/
def stC3pre : argparse :=
  { description := "", completed := false, varargs := false, appname := "prog",
    map := [], arguments := ["-n", "3"], parse_parameters := [],
    parse_options := [⟨["-n"], "nums", .Integer, 2, ""⟩] }

/-- A completed parser state with an empty result map (claim C4). -/
def stC4c : argparse :=
  { description := "", completed := true, varargs := false, appname := "prog",
    map := [], arguments := [], parse_parameters := [], parse_options := [] }

/-- Parser for tokens ["a", "-x", "b", "c"] with option -x (Bool, arity 0)
and positional items : String, Variable (claim C6). -/
def stC6pre : argparse :=
  { description := "", completed := false, varargs := true, appname := "prog",
    map := [], arguments := ["a", "-x", "b", "c"],
    parse_parameters := [⟨"items", .String, -1, ""⟩],
    parse_options := [⟨["-x"], "flag", .Bool, 0, ""⟩] }

/-- State of stC6pre after a successful parse. -/
def stC6post : argparse :=
  { stC6pre with
    completed := true
    map := [("flag", [vtrue]),
            ("items", [⟨.String, "a"⟩, ⟨.String, "b"⟩, ⟨.String, "c"⟩])] }

/-- A non-matching option registered before the overlapping pair
(claim C7). -/
def oQspec : optional_argument := ⟨["-q"], "quiet", .Bool, 0, ""⟩

/-- First-registered of two options whose alias sets share "-v". -/
def oAspec : optional_argument := ⟨["-v"], "verbose", .Bool, 0, ""⟩

/-- Later-registered option also carrying the alias "-v". -/
def oBspec : optional_argument := ⟨["-v"], "v2", .Bool, 0, ""⟩

/-- Parser with one positional spec and no input tokens: parse fails
(claim C8). -/
def stC8 : argparse :=
  { description := "", completed := false, varargs := false, appname := "prog",
    map := [], arguments := [],
    parse_parameters := [⟨"p", .String, 1, ""⟩], parse_options := [] }

/-- Parser for tokens ["-n", "3", "hello"] with option -n : Integer, arity 2
and positional tag : String (claim C9). -/
def stC9pre : argparse :=
  { description := "", completed := false, varargs := false, appname := "prog",
    map := [], arguments := ["-n", "3", "hello"],
    parse_parameters := [⟨"tag", .String, 1, ""⟩],
    parse_options := [⟨["-n"], "nums", .Integer, 2, ""⟩] }

/-- The Variable-arity positional of claim C10's witness. -/
def posItems : positional_argument := ⟨"items", .String, -1, ""⟩

/-- The map produced by phase 2 on posItems with remaining tokens ["a"]. -/
def mapC10 : MapT := [("items", [⟨.String, "a"⟩])]

/-! Helper lemmas about the embedding. -/

/-- Phase-1 consumption never lengthens the token list. -/
theorem consumeN_length (t : value_type) :
    ∀ (n : Nat) (toks : List String) (vs : List value) (rest : List String),
      consumeN t n toks = .ok vs rest → rest.length ≤ toks.length := by
  intro n
  induction n with
  | zero =>
    intro toks vs rest h
    simp only [consumeN] at h
    injection h with h1 h2
    subst h2
    exact Nat.le_refl _
  | succ n ih =>
    intro toks vs rest h
    cases toks with
    | nil => simp [consumeN] at h
    | cons s r =>
      simp only [consumeN] at h
      split at h
      · simp at h
      · split at h
        · rename_i vs2 r2 heq
          injection h with h1 h2
          subst h2
          exact Nat.le_succ_of_le (ih _ _ _ heq)
        · simp at h
        · simp at h

/-- Processing one matched option never lengthens the token list. -/
theorem procOpt_length (o : optional_argument) (rest : List String)
    (ins : Option (List value)) (rest2 : List String)
    (h : procOpt o rest = .ok ins rest2) : rest2.length ≤ rest.length := by
  unfold procOpt at h
  split at h
  · injection h with h1 h2
    subst h2
    exact Nat.le_refl _
  · split at h
    · split at h
      · rename_i vs r2 heq
        injection h with h1 h2
        subst h2
        exact consumeN_length _ _ _ _ _ heq
      · simp at h
      · simp at h
    · split at h
      · split at h
        · injection h with h1 h2
          subst h2
          exact Nat.zero_le _
        · simp at h
      · injection h with h1 h2
        subst h2
        exact Nat.le_refl _

/-- One pass of the inner option loop never lengthens the token list, and
strictly shortens it whenever it reports an update. -/
theorem phase1Inner_length :
    ∀ (os : List optional_argument) (toks : List String) (m : MapT) (upd : Bool)
      (toks2 : List String) (m2 : MapT) (upd2 : Bool),
      phase1Inner os toks m upd = .ok toks2 m2 upd2 →
      toks2.length ≤ toks.length ∧
        (upd = false → upd2 = true → toks2.length < toks.length) := by
  intro os
  induction os with
  | nil =>
    intro toks m upd toks2 m2 upd2 h
    simp only [phase1Inner] at h
    injection h with h1 h2 h3
    subst h1
    subst h3
    refine ⟨Nat.le_refl _, fun hf ht => ?_⟩
    rw [hf] at ht
    exact absurd ht (by simp)
  | cons o os ih =>
    intro toks m upd toks2 m2 upd2 h
    cases toks with
    | nil =>
      simp only [phase1Inner] at h
      injection h with h1 h2 h3
      subst h1
      subst h3
      refine ⟨Nat.le_refl _, fun hf ht => ?_⟩
      rw [hf] at ht
      exact absurd ht (by simp)
    | cons tok rest =>
      simp only [phase1Inner] at h
      split at h
      · split at h
        · rename_i vs rest2 heq
          have hle := procOpt_length o rest _ _ heq
          have H := ih _ _ _ _ _ _ h
          exact ⟨Nat.le_succ_of_le (Nat.le_trans H.1 hle),
                 fun _ _ => Nat.lt_succ_of_le (Nat.le_trans H.1 hle)⟩
        · rename_i rest2 heq
          have hle := procOpt_length o rest _ _ heq
          have H := ih _ _ _ _ _ _ h
          exact ⟨Nat.le_succ_of_le (Nat.le_trans H.1 hle),
                 fun _ _ => Nat.lt_succ_of_le (Nat.le_trans H.1 hle)⟩
        · simp at h
        · simp at h
      · exact ih _ _ _ _ _ _ h

/-- Fuel `toks.length + 1` (or more) is always enough for the outer phase-1
loop. -/
theorem phase1F_some (opts : List optional_argument) :
    ∀ (fuel : Nat) (toks : List String) (m : MapT) (acc : List String),
      toks.length < fuel → phase1F opts fuel toks m acc ≠ none := by
  intro fuel
  induction fuel with
  | zero =>
    intro toks m acc h
    exact absurd h (Nat.not_lt_zero _)
  | succ fuel ih =>
    intro toks m acc h
    cases toks with
    | nil => simp [phase1F]
    | cons tok rest =>
      simp only [phase1F]
      cases hin : phase1Inner opts (tok :: rest) m false with
      | ub => simp
      | err e m2 => simp
      | ok toks2 m2 upd =>
        cases upd with
        | true =>
          have H := phase1Inner_length opts _ _ _ _ _ _ hin
          have h1 : rest.length + 1 < fuel + 1 := h
          have h2 : toks2.length < rest.length + 1 := H.2 rfl rfl
          exact ih toks2 m2 acc (by omega)
        | false =>
          have h1 : rest.length + 1 < fuel + 1 := h
          exact ih rest m2 (tok :: acc) (by omega)

/-- The fuel marker is unreachable: parse always resolves. -/
theorem parse_ne_outOfFuel (st : argparse) : parse st ≠ .outOfFuel := by
  unfold parse
  cases hp : phase1F st.parse_options (st.arguments.length + 1) st.arguments st.map [] with
  | none => exact absurd hp (phase1F_some _ _ _ _ _ (Nat.lt_succ_self _))
  | some r =>
    cases r with
    | ub => simp
    | err e m => simp
    | ok rem m =>
      cases hq : phase2 st.parse_parameters rem m with
      | ok m2 => simp [hq]
      | err e m2 => simp [hq]

/-- mapInsert never disturbs an existing entry. -/
theorem mapFind_mapInsert_keep :
    ∀ (m : MapT) (k k2 : String) (v v2 : List value),
      mapFind m k = some v → mapFind (mapInsert m k2 v2) k = some v := by
  intro m
  induction m with
  | nil =>
    intro k k2 v v2 h
    simp [mapFind] at h
  | cons kv rest ih =>
    intro k k2 v v2 h
    obtain ⟨k0, v0⟩ := kv
    by_cases h1 : k0 = k2
    · simp only [mapInsert, if_pos h1]
      exact h
    · simp only [mapInsert, if_neg h1]
      simp only [mapFind] at h ⊢
      by_cases h2 : k0 = k
      · rw [if_pos h2] at h ⊢
        exact h
      · rw [if_neg h2] at h ⊢
        exact ih k k2 v v2 h

/-- Inserting an absent key makes it findable with exactly the inserted
values. -/
theorem mapFind_mapInsert_self :
    ∀ (m : MapT) (k : String) (v : List value),
      mapFind m k = none → mapFind (mapInsert m k v) k = some v := by
  intro m
  induction m with
  | nil =>
    intro k v h
    simp [mapInsert, mapFind]
  | cons kv rest ih =>
    intro k v h
    obtain ⟨k0, v0⟩ := kv
    simp only [mapFind] at h
    by_cases h2 : k0 = k
    · rw [if_pos h2] at h
      exact absurd h (by simp)
    · rw [if_neg h2] at h
      simp only [mapInsert, if_neg h2]
      simp only [mapFind, if_neg h2]
      exact ih k v h

/-- Variable-arity conversion of a nonempty token list yields a nonempty
value list. -/
theorem convertAll_cons_ne_nil (t : value_type) (s : String) (rest : List String)
    (vs : List value) (h : convertAll t (s :: rest) = .ok vs) : vs ≠ [] := by
  simp only [convertAll] at h
  split at h
  · simp at h
  · split at h
    · simp at h
    · injection h with h1
      subst h1
      simp

/-- Phase 2 preserves every entry already present in the map. -/
theorem phase2_preserves :
    ∀ (ps : List positional_argument) (toks : List String) (m m2 : MapT)
      (k : String) (v : List value),
      phase2 ps toks m = .ok m2 → mapFind m k = some v → mapFind m2 k = some v := by
  intro ps
  induction ps with
  | nil =>
    intro toks m m2 k v h hf
    simp only [phase2] at h
    injection h with h1
    subst h1
    exact hf
  | cons p ps ih =>
    intro toks m m2 k v h hf
    cases toks with
    | nil =>
      simp only [phase2] at h
      exact absurd h (by simp)
    | cons tok rest =>
      simp only [phase2] at h
      split at h
      · split at h
        · exact absurd h (by simp)
        · exact ih _ _ _ _ _ h (mapFind_mapInsert_keep _ _ _ _ _ hf)
      · split at h
        · split at h
          · exact absurd h (by simp)
          · exact ih _ _ _ _ _ h (mapFind_mapInsert_keep _ _ _ _ _ hf)
        · exact ih _ _ _ _ _ h (mapFind_mapInsert_keep _ _ _ _ _ hf)

/-- After a successful run of registrations the shared varargs flag records
whether any registered spec (of either kind) had Variable arity. -/
theorem runRegs_varargs :
    ∀ (ops : List RegOp) (st st2 : argparse),
      runRegs st ops = .ok st2 → st2.varargs = (st.varargs || ops.any regIsVar) := by
  intro ops
  induction ops with
  | nil =>
    intro st st2 h
    simp only [runRegs] at h
    injection h with h1
    subst h1
    simp
  | cons op ops ih =>
    intro st st2 h
    simp only [runRegs] at h
    split at h
    · exact absurd h (by simp)
    · rename_i st1 heq
      have h2 := ih st1 st2 h
      have h3 : st1.varargs = (st.varargs || regIsVar op) := by
        cases op with
        | pos nm t n com =>
          simp only [applyReg, add_argument] at heq
          split at heq
          · exact absurd heq (by simp)
          · injection heq with h4
            subst h4
            simp [regIsVar]
        | opt dirs nm t n com =>
          simp only [applyReg, add_option] at heq
          split at heq
          · exact absurd heq (by simp)
          · injection heq with h4
            subst h4
            simp [regIsVar]
      rw [h2, h3]
      simp [List.any_cons, Bool.or_assoc]

/-- Bridge between the stol model and the spec-worded acceptance predicate
of the amended claim C5. -/
theorem integerAccepts_iff_stol (s : String) :
    integerAcceptsSpec s = true ↔ (stol s).isSome = true := by
  unfold integerAcceptsSpec stol
  by_cases h1 : (stolDigits s).isEmpty = true
  · simp [h1]
  · by_cases h2 : stolVal s < -(2 ^ 63) ∨ 2 ^ 63 - 1 < stolVal s
    · have hc : ¬(-(2 ^ 63) ≤ stolVal s ∧ stolVal s ≤ 2 ^ 63 - 1) := by
        rcases h2 with h | h
        · intro hcj
          exact absurd hcj.1 (not_le.mpr h)
        · intro hcj
          exact absurd hcj.2 (not_le.mpr h)
      simp [h1, h2, hc]
    · have hc : -(2 ^ 63) ≤ stolVal s ∧ stolVal s ≤ 2 ^ 63 - 1 := by
        constructor
        · exact not_lt.mp (fun hh => h2 (Or.inl hh))
        · exact not_lt.mp (fun hh => h2 (Or.inr hh))
      simp [h1, h2, hc]

/-! Claim theorems. -/

/-- C1 counterexample: the claim asserts that after registering a
Variable-arity OPTIONAL spec, registering a positional spec still succeeds.
In the code both add_argument and add_option consult the single shared
`_varargs` flag, so the positional registration fails with
InvalidRegistration. -/
theorem C1_counterexample :
    runRegs (mkParser ["prog"] "")
        [RegOp.opt ["-x"] "xs" .Integer variable_args "",
         RegOp.pos "p" .String 1 ""]
      = .error .InvalidRegistration := rfl

/-- C1 amended: the Variable-arity guard is a single flag shared by the two
kinds.  For every registration sequence applied to a fresh parser, the next
registration (of either kind) fails with InvalidRegistration exactly when
some earlier registration (of either kind) declared Variable arity. -/
theorem C1_amended_thm :
    ∀ (argv : List String) (ops : List RegOp) (st2 : argparse),
      runRegs (mkParser argv "") ops = .ok st2 →
      ∀ op : RegOp,
        (applyReg st2 op = .error .InvalidRegistration ↔ ops.any regIsVar = true) := by
  intro argv ops st2 h op
  have hv := runRegs_varargs ops (mkParser argv "") st2 h
  have hv2 : st2.varargs = ops.any regIsVar := by
    rw [hv]
    simp [mkParser]
  cases hb : st2.varargs with
  | true =>
    have hany : ops.any regIsVar = true := by rw [← hv2]; exact hb
    cases op with
    | pos nm t n com => simp [applyReg, add_argument, hb, hany]
    | opt dirs nm t n com => simp [applyReg, add_option, hb, hany]
  | false =>
    have hany : ops.any regIsVar = false := by rw [← hv2]; exact hb
    cases op with
    | pos nm t n com => simp [applyReg, add_argument, hb, hany]
    | opt dirs nm t n com => simp [applyReg, add_option, hb, hany]

/-- C1 witness: concrete instance of the amended claim after registering one
Variable-arity optional spec. -/
theorem C1_witness :
    runRegs (mkParser ["prog"] "") [RegOp.opt ["-x"] "xs" .Integer variable_args ""]
      = .ok stC1v ∧
    (applyReg stC1v (RegOp.pos "p" .String 1 "") = .error .InvalidRegistration ↔
      [RegOp.opt ["-x"] "xs" .Integer variable_args ""].any regIsVar = true) :=
  ⟨rfl,
   C1_amended_thm ["prog"] [RegOp.opt ["-x"] "xs" .Integer variable_args ""] stC1v rfl
     (RegOp.pos "p" .String 1 "")⟩

/-- C2 counterexample: after a completed parse storing x -> [String "abc"],
converting the entry to int64 genuinely fails (getall raises
InvalidConversion), but get<int64>(name, default) returns the default
instead of propagating the conversion failure, because its body catches
every std::runtime_error. -/
theorem C2_counterexample :
    runRegs (mkParser ["prog", "abc"] "") [RegOp.pos "x" .String 1 ""] = .ok stC2pre ∧
    parse stC2pre = .ok stC2 ∧
    getall stC2 "x" .RInt64 = .error .InvalidConversion ∧
    getD stC2 "x" .RInt64 (.VI 0) = GOut.ok (.VI 0) :=
  ⟨rfl, rfl, rfl, rfl⟩

/-- C2 amended: on a completed result with a stored entry whose conversion
to the requested type fails, get<T>(name, default) returns the default (its
catch-all swallows the conversion failure); only getAll<T>(name, default)
propagates the conversion failure on an existing entry. -/
theorem C2_amended_thm :
    ∀ (st : argparse) (nm : String) (t : req_type) (d : native_val)
      (vs : List value) (e : ArgError),
      st.completed = true →
      mapFind st.map nm = some vs →
      getvals vs t = .error e →
      getD st nm t d = GOut.ok d ∧ getallD st nm t d = .error e := by
  intro st nm t d vs e hc hf hg
  constructor
  · simp [getD, get0, getall, hc, hf, hg]
  · simp [getallD, hc, hf, hg]

/-- C2 witness: the amended claim at the concrete completed state stC2. -/
theorem C2_witness :
    getD stC2 "x" .RInt64 (.VI 0) = GOut.ok (.VI 0) ∧
    getallD stC2 "x" .RInt64 (.VI 0) = .error .InvalidConversion :=
  C2_amended_thm stC2 "x" .RInt64 (.VI 0) [⟨.String, "abc"⟩] .InvalidConversion
    rfl rfl rfl

/-- C3: with option -n (Integer, arity 2) and tokens ["-n", "3"], the
phase-1 consumption loop runs off the end of the token vector: the code
dereferences the end iterator (undefined behavior) instead of failing with
InsufficientArguments as the spec states. -/
theorem C3_evaluation :
    runRegs (mkParser ["prog", "-n", "3"] "") [RegOp.opt ["-n"] "nums" .Integer 2 ""]
      = .ok stC3pre ∧
    parse stC3pre = ParseResult.ub :=
  ⟨rfl, rfl⟩

/-- C4 counterexample: the claim asserts getAll<T>(name, default) returns a
one-element default sequence whenever completed is false; in the code
getall(name, dummy) still raises NotParsed in that case. -/
theorem C4_counterexample :
    getallD (mkParser ["prog"] "") "x" .RInt64 (.VI 0) = .error .NotParsed := rfl

/-- C4 amended: getAll<T>(name, default) returns the one-element default
sequence only when the parse completed and the name has no entry; when
completed is false it raises NotParsed (only get<T>(name, default), whose
catch-all swallows the error, returns the default then). -/
theorem C4_amended_thm :
    ∀ (st : argparse) (nm : String) (t : req_type) (d : native_val),
      (st.completed = true → mapFind st.map nm = none → getallD st nm t d = .ok [d]) ∧
      (st.completed = false →
        getallD st nm t d = .error .NotParsed ∧ getD st nm t d = GOut.ok d) := by
  intro st nm t d
  constructor
  · intro hc hf
    simp [getallD, hc, hf]
  · intro hc
    constructor
    · simp [getallD, hc]
    · simp [getD, get0, getall, hc]

/-- C4 witness: both branches of the amended claim at concrete states. -/
theorem C4_witness :
    getallD stC4c "x" .RInt64 (.VI 0) = .ok [.VI 0] ∧
    (getallD (mkParser ["prog"] "") "x" .RInt64 (.VI 0) = .error .NotParsed ∧
      getD (mkParser ["prog"] "") "x" .RInt64 (.VI 0) = GOut.ok (.VI 0)) :=
  ⟨(C4_amended_thm stC4c "x" .RInt64 (.VI 0)).1 rfl rfl,
   (C4_amended_thm (mkParser ["prog"] "") "x" .RInt64 (.VI 0)).2 rfl⟩

/-- C5 counterexample: the claim asserts that a numeric prefix followed by
non-digit characters fails with InvalidConversion at construction; the code
delegates to std::stol, which parses the prefix "123" and ignores "abc", so
construction of an Integer value from "123abc" succeeds. -/
theorem C5_counterexample :
    mkValue .Integer "123abc" = .ok ⟨.Integer, "123abc"⟩ := rfl

/-- C5 amended: construction with the Integer tag succeeds iff, after
optional leading whitespace and at most one sign character, the string
begins with a digit and the signed value of its longest digit prefix fits a
signed 64-bit integer; trailing characters are ignored, and otherwise the
construction fails with InvalidConversion. -/
theorem C5_amended_thm :
    ∀ s : String, mkValue .Integer s = .ok ⟨.Integer, s⟩ ↔ integerAcceptsSpec s = true := by
  intro s
  rw [integerAccepts_iff_stol]
  cases hstol : stol s with
  | none => simp [mkValue, assert_argument_type, hstol]
  | some v => simp [mkValue, assert_argument_type, hstol]

/-- C6: with option -x (Bool, arity 0) named flag and Variable-arity
positional items : String, parsing ["a", "-x", "b", "c"] succeeds with
flag = [true] and items = ["a", "b", "c"]: the option is extracted
mid-stream and the Variable positional takes all leftover tokens in
order. -/
theorem C6_thm :
    runRegs (mkParser ["prog", "a", "-x", "b", "c"] "")
        [RegOp.opt ["-x"] "flag" .Bool 0 "",
         RegOp.pos "items" .String variable_args ""]
      = .ok stC6pre ∧
    parse stC6pre = .ok stC6post ∧
    getall stC6post "flag" .RBool = .ok [.VB true] ∧
    getall stC6post "items" .RString = .ok [.VS "a", .VS "b", .VS "c"] :=
  ⟨rfl, rfl, rfl, rfl⟩

/-- C7: in phase 1 the options are tested in registration order against the
current token, so the first registered spec whose alias set matches wins:
options registered before it that do not match are skipped (first
conjunct), and the matching spec consumes the token and records its entry
under its own name while the scan continues with only the LATER options on
the tokens after its consumption (second conjunct; third conjunct
instantiates this for an arity-0 switch), so a later-registered spec with an
overlapping alias set never matches that token. -/
theorem C7_thm :
    ∀ (pre os : List optional_argument) (A : optional_argument) (tok : String)
      (rest : List String) (m : MapT),
      (∀ o, o ∈ pre → optMatches o tok = false) →
      optMatches A tok = true →
      (phase1Inner (pre ++ A :: os) (tok :: rest) m false =
        phase1Inner (A :: os) (tok :: rest) m false) ∧
      (phase1Inner (A :: os) (tok :: rest) m false =
        match procOpt A rest with
        | .ok (some vs) rest2 => phase1Inner os rest2 (mapInsert m A.name vs) true
        | .ok none rest2 => phase1Inner os rest2 m true
        | .err e => .err e m
        | .ub => .ub) ∧
      (A.nargs = 0 →
        phase1Inner (A :: os) (tok :: rest) m false =
          phase1Inner os rest (mapInsert m A.name [vtrue]) true) := by
  intro pre os A tok rest m hpre hA
  have step : phase1Inner (A :: os) (tok :: rest) m false =
      match procOpt A rest with
      | .ok (some vs) rest2 => phase1Inner os rest2 (mapInsert m A.name vs) true
      | .ok none rest2 => phase1Inner os rest2 m true
      | .err e => .err e m
      | .ub => .ub := by
    simp [phase1Inner, hA]
  refine ⟨?_, step, ?_⟩
  · revert hpre
    induction pre with
    | nil =>
      intro _
      rfl
    | cons o pre ih =>
      intro hpre
      have ho : optMatches o tok = false := hpre o (List.mem_cons_self o pre)
      have ih2 := ih (fun o2 h2 => hpre o2 (List.mem_cons_of_mem o h2))
      rw [List.cons_append]
      have hstep : phase1Inner (o :: (pre ++ A :: os)) (tok :: rest) m false =
          phase1Inner (pre ++ A :: os) (tok :: rest) m false := by
        simp [phase1Inner, ho]
      rw [hstep, ih2]
  · intro h0
    rw [step]
    simp [procOpt, h0]

/-- C7 witness: a non-matching option (-q) registered first, then two
options both carrying the alias "-v"; the first of them (named "verbose")
processes the token and records its entry; the later one only sees the rest
of the input. -/
theorem C7_witness :
    (phase1Inner [oQspec, oAspec, oBspec] ["-v"] [] false =
      phase1Inner [oAspec, oBspec] ["-v"] [] false) ∧
    (phase1Inner [oAspec, oBspec] ["-v"] [] false =
      phase1Inner [oBspec] [] (mapInsert [] "verbose" [vtrue]) true) :=
  ⟨(C7_thm [oQspec] [oBspec] oAspec "-v" [] [] (by decide) (by decide)).1,
   (C7_thm [oQspec] [oBspec] oAspec "-v" [] [] (by decide) (by decide)).2.2 rfl⟩

/-- C8: whenever parse fails with a propagating error (exit-on-error
disabled), the completed flag stays false and every subsequent
getall<T>(name) or get<T>(name) raises NotParsed, regardless of the entries
recorded in the map before the failure. -/
theorem C8_thm :
    ∀ (st : argparse) (e : ArgError) (st2 : argparse),
      st.completed = false →
      parse st = .err e st2 →
      st2.completed = false ∧
        ∀ (nm : String) (t : req_type),
          getall st2 nm t = .error .NotParsed ∧ get0 st2 nm t = GOut.err .NotParsed := by
  intro st e st2 hc hp
  have hcc : st2.completed = false := by
    unfold parse at hp
    split at hp
    · exact absurd hp (by simp)
    · exact absurd hp (by simp)
    · injection hp with he hs
      rw [← hs]
      exact hc
    · split at hp
      · injection hp with he hs
        rw [← hs]
        exact hc
      · exact absurd hp (by simp)
  refine ⟨hcc, fun nm t => ⟨?_, ?_⟩⟩
  · simp [getall, hcc]
  · simp [get0, getall, hcc]

/-- C8 witness: a parser with one positional spec and no tokens fails with
InsufficientArguments; afterwards completed is still false and both query
forms raise NotParsed. -/
theorem C8_witness :
    stC8.completed = false ∧
    getall stC8 "p" .RString = .error .NotParsed ∧
    get0 stC8 "p" .RString = GOut.err .NotParsed :=
  ⟨(C8_thm stC8 .InsufficientArguments stC8 rfl rfl).1,
   ((C8_thm stC8 .InsufficientArguments stC8 rfl rfl).2 "p" .RString).1,
   ((C8_thm stC8 .InsufficientArguments stC8 rfl rfl).2 "p" .RString).2⟩

/-- C9 counterexample: the claim asserts that parsing ["-n", "3", "hello"]
with option -n (Integer, arity 2) and positional tag (String, arity 1)
fails with InsufficientArguments; the code's option greedily consumes both
"3" and "hello" as its two Integer values and fails with InvalidConversion
on "hello" instead. -/
theorem C9_counterexample :
    runRegs (mkParser ["prog", "-n", "3", "hello"] "")
        [RegOp.opt ["-n"] "nums" .Integer 2 "",
         RegOp.pos "tag" .String 1 ""]
      = .ok stC9pre ∧
    parse stC9pre = .err .InvalidConversion stC9pre :=
  ⟨rfl, rfl⟩

/-- C9 amended: parsing ["-n", "3", "hello"] fails, but with
InvalidConversion: the arity-2 option consumes "3" and "hello" as its two
Integer values and the conversion of "hello" fails; the unsatisfied
positional is never reached. -/
theorem C9_amended_thm :
    mkValue .Integer "hello" = .error .InvalidConversion ∧
    consumeN .Integer 2 ["3", "hello"] = .err .InvalidConversion ∧
    parse stC9pre = .err .InvalidConversion stC9pre :=
  ⟨rfl, rfl, rfl⟩

/-- C10: in phase 2 the top-of-loop check fires before the arity is
inspected, so an exhausted remaining sequence fails with
InsufficientArguments even when the spec under consideration has Variable
arity (first conjunct); consequently a Variable-arity positional that is
resolved at all is resolved against a nonempty remaining sequence and its
recorded entry is never the empty value sequence (second conjunct). -/
theorem C10_thm :
    (∀ (p : positional_argument) (ps : List positional_argument) (m : MapT),
        phase2 (p :: ps) [] m = .err .InsufficientArguments m) ∧
    (∀ (p : positional_argument) (ps : List positional_argument)
        (toks : List String) (m m2 : MapT),
        p.nargs = variable_args → mapFind m p.name = none →
        phase2 (p :: ps) toks m = .ok m2 →
        mapFind m2 p.name ≠ none ∧ mapFind m2 p.name ≠ some []) := by
  constructor
  · intro p ps m
    rfl
  · intro p ps toks m m2 hv hf hp
    cases toks with
    | nil => simp [phase2] at hp
    | cons tok rest =>
      simp only [phase2] at hp
      rw [hv] at hp
      rw [if_neg (by decide : ¬((1 : Int) ≤ variable_args)), if_pos rfl] at hp
      split at hp
      · simp at hp
      · rename_i vs heq
        have hne := convertAll_cons_ne_nil _ _ _ _ heq
        have hself := mapFind_mapInsert_self m p.name vs hf
        have hkeep := phase2_preserves ps [] (mapInsert m p.name vs) m2 p.name vs hp hself
        constructor
        · rw [hkeep]
          simp
        · rw [hkeep]
          intro hcon
          exact hne (Option.some.inj hcon)

/-- C10 witness: the first conjunct at the concrete Variable-arity
positional items with an empty remaining sequence, and the second conjunct
after phase 2 resolves items against the remaining token "a". -/
theorem C10_witness :
    phase2 [posItems] [] [] = .err .InsufficientArguments [] ∧
    (mapFind mapC10 "items" ≠ none ∧ mapFind mapC10 "items" ≠ some []) :=
  ⟨C10_thm.1 posItems [] [],
   C10_thm.2 posItems [] ["a"] [] mapC10 rfl rfl rfl⟩

end Argparse
